import Mathlib

/-!
Verification development for the helm-spray deployment orchestrator.

The definitions below are a shallow embedding of the Go sources:
* `internal/dependencies/dependencies.go` (unit resolution: targeting, tags, weight),
* `pkg/kubectl/kubectl.go` (readiness probes via go-templates / jsonpath),
* `pkg/helm/helm.go` (argument construction for the release tool),
* `pkg/helmspray/helmspray.go` (the weighted-wave scheduler: `Spray`,
  `upgrade`, `wait`, `maxWeight`),
* `cmd/cmd.go` (flag validation in `NewRootCmd`).
State and side effects (the cluster, the helm subprocess) are passed
explicitly as oracle parameters; the scheduler produces an event trace.
-/

namespace HelmSpray

/-- A value of Go dynamic type `interface{}` as it appears in a parsed
values map; only the shapes the code inspects are distinguished.  The Go
comparison `v == true` holds exactly for the boolean `true` value. -/
inductive GoValue where
  | bool (b : Bool)
  | str (s : String)
  | num (n : Int)
  | other
  deriving DecidableEq, Repr

/-- Go `v == true` on an `interface{}` value. -/
def GoValue.eqTrue : GoValue → Bool
  | .bool true => true
  | _ => false

/-- One entry of `chart.Metadata.Dependencies`: the declared name, the
optional alias (empty string when absent) and the declared tag list. -/
structure ChartDependency where
  name : String
  aliasName : String
  tags : List String
  deriving DecidableEq, Repr

/-- `dependencies.go`: the used name is the alias when present, else the name. -/
def usedNameOf (req : ChartDependency) : String :=
  if req.aliasName = "" then req.name else req.aliasName

/-- `dependencies.go` lines 44-62: the `Targeted` flag.  Go initializes the
flag and then loops over the target (resp. exclude) list, flipping it on a
match; the folds mirror those loops. -/
def computeTargeted (targets excludes : List String) (usedName : String) : Bool :=
  if targets.length > 0 then
    targets.foldl (fun acc t => if t == usedName then true else acc) false
  else if excludes.length > 0 then
    excludes.foldl (fun acc e => if e == usedName then false else acc) true
  else
    true

/-- `dependencies.go` lines 64-78: the `AllowedByTags` flag.  `provided` is
the `tags` sub-map of the merged values (`nil`, i.e. `[]`, when the map is
absent); Go double-loops over the declared tags and the map entries and
sets the flag when a declared tag is bound to boolean `true`. -/
def computeAllowedByTags (reqTags : List String) (provided : List (String × GoValue)) : Bool :=
  if reqTags.length = 0 then
    true
  else
    reqTags.foldl
      (fun acc tag =>
        provided.foldl (fun acc2 kv => if kv.1 == tag && kv.2.eqTrue then true else acc2) acc)
      false

/-- The value found by `values.PathValue("<usedName>.weight")`, as the Go
json machinery presents it: a `json.Number` (whose `Int64()` either parses
or fails), a `float64` (of which the code only uses the `int(...)`
truncation; `integral` records whether the float was a whole number), or a
value of any other dynamic type. -/
inductive WeightJson where
  | jsonNumber (parsed : Option Int)
  | float64 (trunc : Int) (integral : Bool)
  | otherType
  deriving DecidableEq, Repr

/-- `dependencies.go` lines 80-106: weight resolution for one unit.
`pathValue` is the result of `values.PathValue("<usedName>.weight")`
(`none` when the path is missing, in which case the Go helper returns an
error and the code calls `log.ErrorAndExit`). -/
def getWeight (usedName : String) (pathValue : Option WeightJson) : Except String Int :=
  match pathValue with
  | none =>
      .error ("Error computing weight value for sub-chart \"" ++ usedName ++ "\"")
  | some w =>
      let weightInteger : Except String Int :=
        match w with
        | .jsonNumber none =>
            .error ("Error computing weight value for sub-chart \"" ++ usedName
              ++ "\": value shall be an integer")
        | .jsonNumber (some i) => .ok i
        | .float64 t _ => .ok t
        | .otherType =>
            .error ("Error computing weight value for sub-chart \"" ++ usedName
              ++ "\": value shall be an integer")
      match weightInteger with
      | .error e => .error e
      | .ok wi =>
          if wi < 0 then
            .error ("Error computing weight value for sub-chart \"" ++ usedName
              ++ "\": value shall be positive or equal to zero")
          else
            .ok wi

/-- `dependencies.go`: the resolved attributes of one sub-chart (the Go
`Dependency` struct; the informational `AppVersion` field is omitted). -/
structure Dependency where
  name : String
  aliasName : String
  usedName : String
  targeted : Bool
  weight : Int
  correspondingReleaseName : String
  hasTags : Bool
  allowedByTags : Bool
  deriving DecidableEq, Repr

/-- `helmspray.go` lines 428-438: highest weight among the dependencies
(`0` for an empty list). -/
def maxWeight (deps : List Dependency) : Int :=
  match deps with
  | [] => 0
  | d :: rest => rest.foldl (fun m x => if x.weight > m then x.weight else m) d.weight

/-! ## Readiness probes (`pkg/kubectl/kubectl.go`) -/

/-- A replica-controlled workload (Deployment or StatefulSet) as the
go-template in `areWorkloadsReady` sees it: the desired `.spec.replicas`
and the three `.status` counters, each `none` when the status field is
absent from the object. -/
structure ReplicaWorkload where
  name : String
  specReplicas : Int
  readyReplicas : Option Int
  currentReplicas : Option Int
  updatedReplicas : Option Int
  deriving DecidableEq, Repr

/-- Truthiness of `{{if X}}` in a go-template for an integer field: false
when the field is absent and when it is zero. -/
def tmplTruthy : Option Int → Bool
  | none => false
  | some v => v != 0

/-- `$ready` in the template: `0`, overridden by `.status.readyReplicas`
when truthy. -/
def tmplReady (w : ReplicaWorkload) : Int :=
  if tmplTruthy w.readyReplicas then w.readyReplicas.getD 0 else 0

/-- `$current` in the template: `.spec.replicas`, overridden by
`.status.currentReplicas` when truthy. -/
def tmplCurrent (w : ReplicaWorkload) : Int :=
  if tmplTruthy w.currentReplicas then w.currentReplicas.getD 0 else w.specReplicas

/-- `$updated` in the template: `0`, overridden by
`.status.updatedReplicas` when truthy. -/
def tmplUpdated (w : ReplicaWorkload) : Int :=
  if tmplTruthy w.updatedReplicas then w.updatedReplicas.getD 0 else 0

/-- The template's per-item test: the item's name is printed when
`lt $ready .spec.replicas`, `lt $current .spec.replicas` or
`lt $updated .spec.replicas` holds. -/
def workloadBehind (w : ReplicaWorkload) : Bool :=
  tmplReady w < w.specReplicas || tmplCurrent w < w.specReplicas
    || tmplUpdated w < w.specReplicas

/-- The names printed by the go-template of `areWorkloadsReady`: it ranges
over all cluster items, keeps those whose `.metadata.name` matches one of
`names` (the `generateTemplate` guard), and prints the names of those that
are behind. -/
def notReadyOutput (names : List String) (items : List ReplicaWorkload) : List String :=
  ((items.filter (fun w => names.contains w.name)).filter workloadBehind).map (·.name)

/-- `kubectl.go` lines 109-146, `areWorkloadsReady`: empty name list is
ready; a `kubectl` execution failure (`execError`) returns `(false, err)`;
otherwise the probe is ready iff the template printed nothing.  `items` is
the list of workloads of the queried kind that exist in the cluster. -/
def areWorkloadsReady (names : List String) (items : List ReplicaWorkload)
    (execError : Option String) : Bool × Option String :=
  if names.length = 0 then (true, none)
  else
    match execError with
    | some e => (false, some e)
    | none => ((notReadyOutput names items).isEmpty, none)

/-- A job as `AreJobsReady` sees it: `.status.succeeded`, `none` when the
field is absent (the jsonpath then prints `""` and `strconv.Atoi` yields
`0`, its error being discarded). -/
structure JobWorkload where
  name : String
  succeeded : Option Int
  deriving DecidableEq, Repr

/-- `kubectl get job <name>` lookup: the first job with that name. -/
def lookupJob (jobs : List JobWorkload) (n : String) : Option JobWorkload :=
  jobs.find? (fun j => j.name == n)

/-- `kubectl.go` lines 74-96, `AreJobsReady`: for each name in turn, run
`kubectl get job <name>`; a missing job makes `kubectl` exit non-zero, so
the call returns `(false, err)`; a found job with `succeeded < 1` returns
`(false, nil)`; otherwise continue, returning `(true, nil)` at the end. -/
def AreJobsReady (names : List String) (jobs : List JobWorkload) : Bool × Option String :=
  match names with
  | [] => (true, none)
  | n :: rest =>
    match lookupJob jobs n with
    | none => (false, some ("error getting job " ++ n))
    | some j =>
      if j.succeeded.getD 0 < 1 then (false, none)
      else AreJobsReady rest jobs

/-! ## The readiness barrier (`helmspray.go` lines 337-425, `wait`) -/

/-- The poll oracles of one `wait` call: for iteration `n`, the result of
`kubectl.AreDeploymentsReady` / `AreStatefulSetsReady` / `AreJobsReady` —
a boolean and a possible error, exactly the Go pair. -/
structure WaitPolls where
  deploysReady : Nat → Bool × Option String
  statefulSetsReady : Nat → Bool × Option String
  jobsReady : Nat → Bool × Option String

/-- The three `done*` flags of the `wait` loop. -/
structure WaitState where
  doneDeployments : Bool
  doneStatefulSets : Bool
  doneJobs : Bool
  deriving DecidableEq, Repr

/-- One pass of the `wait` loop body: each kind with a non-empty pending
list (`hasD`/`hasS`/`hasJ`) and a still-false flag is polled, and the
error component of the poll is discarded (`done..., _ = kubectl.Are...`);
a kind with an empty list (or an already-true flag) has its flag set to
true. -/
def waitStep (hasD hasS hasJ : Bool) (polls : WaitPolls) (n : Nat)
    (st : WaitState) : WaitState :=
  { doneDeployments := if hasD && !st.doneDeployments then (polls.deploysReady n).1 else true
    doneStatefulSets := if hasS && !st.doneStatefulSets then (polls.statefulSetsReady n).1 else true
    doneJobs := if hasJ && !st.doneJobs then (polls.jobsReady n).1 else true }

/-- The `for i := 0; i < timeout; { ...; i = i + sleepTime }` loop with
`sleepTime = 5`.  `i` is the Go loop counter, `n` counts completed
iterations (poll attempts); the fuel argument only bounds recursion and is
never exhausted when it starts at `timeout.toNat + 1`. -/
def waitLoop (hasD hasS hasJ : Bool) (polls : WaitPolls) (timeout : Int) :
    Nat → Int → Nat → WaitState → Nat × WaitState
  | 0, _, n, st => (n, st)
  | fuel + 1, i, n, st =>
    if i < timeout then
      let st' := waitStep hasD hasS hasJ polls n st
      if st'.doneDeployments && st'.doneStatefulSets && st'.doneJobs then (n + 1, st')
      else waitLoop hasD hasS hasJ polls timeout fuel (i + 5) (n + 1) st'
    else (n, st)

/-- `helmspray.go` `wait`: run the loop from `i = 0` with all flags false;
afterwards, if any flag is still false the call fails with the timeout
error.  The first component counts poll attempts (loop iterations). -/
def waitRun (hasD hasS hasJ : Bool) (polls : WaitPolls) (timeout : Int) :
    Nat × Option String :=
  let r := waitLoop hasD hasS hasJ polls timeout (timeout.toNat + 1) 0 0
    ⟨false, false, false⟩
  (r.1,
    if !r.2.doneDeployments || !r.2.doneStatefulSets || !r.2.doneJobs then
      some "timed out waiting for liveness and readiness"
    else none)

/-! ## Release-tool invocation (`pkg/helm/helm.go` `UpgradeWithValues`) -/

/-- `helm.go` lines 183-218: the argument vector handed to the external
`helm` binary.  Each loop `for _, v := range xs { myargs = append(myargs,
flag); myargs = append(myargs, v) }` is a fold appending the flag/value
pair. -/
def upgradeArgs (ns releaseName chartPath : String)
    (resetValues reuseValues : Bool)
    (valueFiles valuesSet valuesSetString valuesSetFile : List String)
    (force : Bool) (timeout : Int) (dryRun debug : Bool) : List String :=
  let myargs := ["upgrade", "--install", releaseName, chartPath, "--namespace", ns,
    "--timeout", toString timeout ++ "s"]
  let myargs := valuesSet.foldl (fun a v => a ++ ["--set", v]) myargs
  let myargs := valuesSetString.foldl (fun a v => a ++ ["--set-string", v]) myargs
  let myargs := valuesSetFile.foldl (fun a v => a ++ ["--set-file", v]) myargs
  let myargs := valueFiles.foldl (fun a v => a ++ ["-f", v]) myargs
  let myargs := if resetValues then myargs ++ ["--reset-values"] else myargs
  let myargs := if reuseValues then myargs ++ ["--reuse-values"] else myargs
  let myargs := if force then myargs ++ ["--force"] else myargs
  let myargs := if dryRun then myargs ++ ["--dry-run"] else myargs
  let myargs := if debug then myargs ++ ["--debug"] else myargs
  myargs

/-! ## The wave scheduler (`helmspray.go` `Spray` / `upgrade`) -/

/-- `helmspray.go` lines 288-296: the single `--set` string that enables
exactly the unit being upgraded and disables every other dependency of the
umbrella chart.  Built left to right by string concatenation, one fragment
per dependency, exactly as the Go loop does. -/
def depValuesSetString (deps : List Dependency) (unit : Dependency) : String :=
  deps.foldl
    (fun acc dep =>
      if dep.usedName == unit.usedName then acc ++ dep.usedName ++ ".enabled=true,"
      else acc ++ dep.usedName ++ ".enabled=false,")
    ""

/-- `helmspray.go` lines 297-299: the `--set` override list handed to
`helm.UpgradeWithValues` — the user's `--set` values first, the
enable/disable string appended after them. -/
def upgradeValuesSet (userValues : List String) (deps : List Dependency)
    (unit : Dependency) : List String :=
  userValues ++ [depValuesSetString deps unit]

/-- The outcome the external release tool reports for one `helm upgrade`
invocation: whether the subprocess itself failed (transport level) and the
status token parsed from its output. -/
structure ReleaseOutcome where
  transportError : Bool
  status : String

/-- Observable actions of one spray run: a release-operation call for a
unit (with the dry-run flag it was given) and entry into the readiness
barrier (`s.wait()`) after a wave. -/
inductive SprayEvent where
  | upgradeCall (releaseName : String) (weight : Int) (dryRun : Bool)
  | barrier (weight : Int)
  deriving DecidableEq, Repr

/-- The weight a trace event belongs to. -/
def SprayEvent.weightOf : SprayEvent → Int
  | .upgradeCall _ w _ => w
  | .barrier w => w

/-- A unit is processed in the wave of its weight iff it is targeted and
allowed by tags (`helmspray.go` lines 270-272). -/
def eligible (d : Dependency) : Bool :=
  d.targeted && d.allowedByTags

/-- `helmspray.go` lines 266-335, `upgrade` for one weight: walk the
dependency list; for every eligible unit of the current weight, invoke the
release tool (`env` gives its outcome keyed by release name).  A transport
error aborts with `calling helm upgrade`; on a non-dry run a status other
than `deployed` aborts with the status error; otherwise processing
continues and `shouldWait` becomes true.  Returns (events, shouldWait,
error). -/
def upgradeWave (env : String → ReleaseOutcome) (dryRun : Bool) (w : Int) :
    List Dependency → List SprayEvent × Bool × Option String
  | [] => ([], false, none)
  | d :: rest =>
    if eligible d && d.weight == w then
      let ev := SprayEvent.upgradeCall d.correspondingReleaseName w dryRun
      let out := env d.correspondingReleaseName
      if out.transportError then
        ([ev], false, some "calling helm upgrade")
      else if !dryRun && out.status != "deployed" then
        ([ev], false, some "status returned by helm differs from \"deployed\", spray interrupted")
      else
        let r := upgradeWave env dryRun w rest
        (ev :: r.1, true, r.2.2)
    else
      upgradeWave env dryRun w rest

/-- `helmspray.go` lines 246-259: the weights the `Spray` loop iterates
over — `for i := 0; i <= maxWeight(deps); i++`.  For a negative bound the
loop body never runs. -/
def weightRange (deps : List Dependency) : List Int :=
  (List.range (maxWeight deps + 1).toNat).map (fun n : Nat => (n : Int))

/-- The `Spray` weight loop over a list of weights: run `upgrade` for the
wave; on error stop; if the wave processed at least one unit and this is
not a dry run, enter the readiness barrier (`waitOk w` tells whether the
barrier resolved before the timeout; on timeout stop with the timeout
error); then continue with the next weight. -/
def sprayWeights (env : String → ReleaseOutcome) (waitOk : Int → Bool)
    (dryRun : Bool) (deps : List Dependency) :
    List Int → List SprayEvent × Option String
  | [] => ([], none)
  | w :: ws =>
    let u := upgradeWave env dryRun w deps
    match u.2.2 with
    | some e => (u.1, some e)
    | none =>
      if u.2.1 && !dryRun then
        let evs := u.1 ++ [SprayEvent.barrier w]
        if waitOk w then
          let r := sprayWeights env waitOk dryRun deps ws
          (evs ++ r.1, r.2)
        else
          (evs, some "timed out waiting for liveness and readiness")
      else
        let r := sprayWeights env waitOk dryRun deps ws
        (u.1 ++ r.1, r.2)

/-- One spray run (`helmspray.go` `Spray`, the weight loop): the event
trace and the error it ends with (`none` = completed). -/
def sprayRun (env : String → ReleaseOutcome) (waitOk : Int → Bool)
    (dryRun : Bool) (deps : List Dependency) : List SprayEvent × Option String :=
  sprayWeights env waitOk dryRun deps (weightRange deps)

/-- `cmd/main.go`: the process exits 1 when `Execute` returns an error,
0 otherwise. -/
def sprayExitCode (env : String → ReleaseOutcome) (waitOk : Int → Bool)
    (dryRun : Bool) (deps : List Dependency) : Nat :=
  if (sprayRun env waitOk dryRun deps).2.isSome then 1 else 0

/-! ## CLI validation (`cmd/cmd.go` lines 82-139, `NewRootCmd`) -/

/-- Outcome of the root command's `RunE` up to the point where spraying
starts: either one of the validation errors, or control reached the
fetch-and-spray tail of the function. -/
inductive RunOutcome where
  | err (msg : String)
  | sprayInvoked
  deriving DecidableEq, Repr

/-- The validation chain of `RunE`, in source order.  `chartDirExists`
stands for `os.Stat(s.ChartName) == nil` in the version checks; the
fetching and the call to `s.Spray()` that follow the checks are abstracted
into the single outcome `sprayInvoked`. -/
def runE (args : List String) (chartVersion : String) (chartDirExists : Bool)
    (prefixWithNamespace : Bool) (prefixReleases : String)
    (targets excludes : List String) : RunOutcome :=
  if args.length = 0 then
    .err "this command needs at least 1 argument: chart name"
  else if args.length > 1 then
    .err "this command accepts only 1 argument: chart name"
  else
    let chartName := args.headD ""
    if chartVersion ≠ "" ∧ chartName.endsWith "tgz" = true then
      .err "cannot use --version together with chart archive"
    else if chartVersion ≠ "" ∧ chartDirExists = true then
      .err "cannot use --version together with chart directory"
    else if chartVersion ≠ ""
        ∧ (chartName.startsWith "http://" = true ∨ chartName.startsWith "https://" = true
            ∨ chartName.startsWith "oci://" = true) then
      .err "cannot use --version together with chart URL"
    else if prefixWithNamespace = true ∧ prefixReleases ≠ "" then
      .err "cannot use both --prefix-releases and --prefix-releases-with-namespace together"
    else if targets.length > 0 ∧ excludes.length > 0 then
      .err "cannot use both --target and --exclude together"
    else
      .sprayInvoked

def neverPolls : WaitPolls :=
  ⟨fun _ => (false, none), fun _ => (false, none), fun _ => (false, none)⟩

/-- A plain eligible unit used in the concrete scenarios: no alias, no
tags, release name equal to its used name. -/
def plainUnit (n : String) (w : Int) : Dependency :=
  ⟨n, "", n, true, w, n, false, true⟩

/-- The weight set `{0, 2, 5}` of the spec's wave-ordering scenario. -/
def gapDeps : List Dependency := [plainUnit "a" 0, plainUnit "b" 2, plainUnit "c" 5]

/-- A release environment in which every call succeeds with status
`deployed`. -/
def deployedEnv : String → ReleaseOutcome := fun _ => ⟨false, "deployed"⟩

/-- The release outcome for a unit is acceptable: no transport error, and
on a non-dry run the status token is `deployed`. -/
def releaseOk (env : String → ReleaseOutcome) (dryRun : Bool) (d : Dependency) : Bool :=
  !(env d.correspondingReleaseName).transportError
    && (dryRun || (env d.correspondingReleaseName).status == "deployed")
/-- Polls whose boolean component is never ready and whose error component
is a permanent cluster-query failure. -/
def errPolls : WaitPolls :=
  ⟨fun _ => (false, some "connection refused"), fun _ => (false, some "connection refused"),
    fun _ => (false, some "connection refused")⟩
/-- A release environment that fails unit `b` with a non-`deployed`
status, all other calls succeeding. -/
def failBEnv : String → ReleaseOutcome := fun n =>
  if n == "b" then ⟨false, "failed"⟩ else ⟨false, "deployed"⟩
/-- The fragment the upgrade loop contributes for one dependency: its
`.enabled` flag, true exactly when the dependency is the unit being
upgraded. -/
def enabledFragment (unit dep : Dependency) : String :=
  if dep.usedName == unit.usedName then dep.usedName ++ ".enabled=true,"
  else dep.usedName ++ ".enabled=false,"

/-! ## Helper lemmas -/

theorem foldl_if_or (p : String → Bool) (l : List String) (acc : Bool) :
    l.foldl (fun a t => if p t then true else a) acc = (acc || l.any p) := by
  induction l generalizing acc with
  | nil => simp
  | cons t l ih =>
    rw [List.foldl_cons, ih, List.any_cons]
    by_cases h : p t = true <;> simp [h]

theorem foldl_if_and (p : String → Bool) (l : List String) (acc : Bool) :
    l.foldl (fun a t => if p t then false else a) acc = (acc && !l.any p) := by
  induction l generalizing acc with
  | nil => simp
  | cons t l ih =>
    rw [List.foldl_cons, ih, List.any_cons]
    by_cases h : p t = true <;> simp [h]

theorem foldl_pair_or (p : String × GoValue → Bool) (l : List (String × GoValue)) (acc : Bool) :
    l.foldl (fun a kv => if p kv then true else a) acc = (acc || l.any p) := by
  induction l generalizing acc with
  | nil => simp
  | cons kv l ih =>
    rw [List.foldl_cons, ih, List.any_cons]
    by_cases h : p kv = true <;> simp [h]

theorem GoValue.eqTrue_iff (v : GoValue) : v.eqTrue = true ↔ v = .bool true := by
  cases v with
  | bool b => cases b <;> simp [GoValue.eqTrue]
  | str s => simp [GoValue.eqTrue]
  | num n => simp [GoValue.eqTrue]
  | other => simp [GoValue.eqTrue]

/-! ## C5: targeting rules and target/exclude mutual exclusion -/

/-- C5.  For every unit: with a non-empty target list, `targeted` holds iff
the unit's used name is in the target list; with an empty target list and a
non-empty exclude list, `targeted` holds iff the used name is not in the
exclude list; with both lists empty every unit is targeted; and the root
command rejects a simultaneous non-empty target list and exclude list with
the configuration error, before the spray (and hence before any upgrade)
is invoked, whatever the two lists contain. -/
theorem c5_targeting (targets excludes : List String) (u : String)
    (args : List String) (chartVersion : String) (chartDirExists : Bool)
    (prefixWithNamespace : Bool) (prefixReleases : String)
    (hargs : args.length = 1) (hver : chartVersion = "")
    (hpfx : prefixWithNamespace = false ∨ prefixReleases = "") :
    (targets ≠ [] → (computeTargeted targets excludes u = true ↔ u ∈ targets)) ∧
    (targets = [] → excludes ≠ [] →
      (computeTargeted targets excludes u = true ↔ u ∉ excludes)) ∧
    (targets = [] → excludes = [] → computeTargeted targets excludes u = true) ∧
    (targets ≠ [] → excludes ≠ [] →
      runE args chartVersion chartDirExists prefixWithNamespace prefixReleases
          targets excludes
        = .err "cannot use both --target and --exclude together") := by
  refine ⟨?_, ?_, ?_, ?_⟩
  · intro ht
    have hlen : 0 < targets.length := List.length_pos.mpr ht
    simp only [computeTargeted, if_pos (by omega : targets.length > 0)]
    rw [foldl_if_or (fun t => t == u)]
    simp [List.any_eq_true]
  · intro ht hx
    have hlen : 0 < excludes.length := List.length_pos.mpr hx
    simp only [computeTargeted, ht]
    simp only [List.length_nil, gt_iff_lt, lt_self_iff_false, if_false,
      if_pos (by omega : excludes.length > 0)]
    rw [foldl_if_and (fun e => e == u)]
    have hany : (excludes.any fun e => e == u) = true ↔ u ∈ excludes := by
      rw [List.any_eq_true]
      constructor
      · rintro ⟨x, hx, he⟩
        rw [beq_iff_eq] at he
        exact he ▸ hx
      · intro h
        exact ⟨u, h, beq_self_eq_true u⟩
    rw [Bool.true_and, Bool.not_eq_true', ← Bool.not_eq_true]
    exact not_congr hany
  · intro ht hx
    simp [computeTargeted, ht, hx]
  · intro ht hx
    have hlt : targets.length > 0 := List.length_pos.mpr ht
    have hlx : excludes.length > 0 := List.length_pos.mpr hx
    subst hver
    simp only [runE]
    rw [if_neg (by omega), if_neg (by omega), if_neg (by simp), if_neg (by simp),
      if_neg (by simp), if_neg (by rcases hpfx with h | h <;> simp [h]),
      if_pos ⟨hlt, hlx⟩]

/-- Witness for C5 at a concrete configuration. -/
theorem c5_targeting_witness :
    (["x"] ≠ ([] : List String) → (computeTargeted ["x"] ["y"] "x" = true ↔ "x" ∈ ["x"])) ∧
    (["x"] = ([] : List String) → ["y"] ≠ ([] : List String) →
      (computeTargeted ["x"] ["y"] "x" = true ↔ "x" ∉ ["y"])) ∧
    (["x"] = ([] : List String) → ["y"] = ([] : List String) →
      computeTargeted ["x"] ["y"] "x" = true) ∧
    (["x"] ≠ ([] : List String) → ["y"] ≠ ([] : List String) →
      runE ["chart"] "" false false "" ["x"] ["y"]
        = .err "cannot use both --target and --exclude together") :=
  c5_targeting ["x"] ["y"] "x" ["chart"] "" false false "" (by decide) rfl (.inl rfl)

/-! ## C7: tag gating -/

theorem foldl_tags_any (provided : List (String × GoValue)) (reqTags : List String)
    (acc : Bool) :
    reqTags.foldl
        (fun acc tag =>
          provided.foldl (fun acc2 kv => if kv.1 == tag && kv.2.eqTrue then true else acc2) acc)
        acc
      = (acc || reqTags.any fun tag => provided.any fun kv => kv.1 == tag && kv.2.eqTrue) := by
  induction reqTags generalizing acc with
  | nil => simp
  | cons t l ih =>
    rw [List.foldl_cons, ih, List.any_cons, foldl_pair_or]
    by_cases h : (provided.any fun kv => kv.1 == t && kv.2.eqTrue) = true <;> simp [h]

/-- C7.  A unit with zero declared tags is allowed by tags whatever the
`tags` map holds; a unit with declared tags is allowed iff one of its tags
is bound to boolean `true` in the map; with an empty (or absent, i.e.
`nil`) map, a unit with tags is never allowed. -/
theorem c7_allowed_by_tags (reqTags : List String) (provided : List (String × GoValue)) :
    (reqTags = [] → computeAllowedByTags reqTags provided = true) ∧
    (reqTags ≠ [] →
      (computeAllowedByTags reqTags provided = true ↔
        ∃ t ∈ reqTags, (t, GoValue.bool true) ∈ provided)) ∧
    (reqTags ≠ [] → computeAllowedByTags reqTags [] = false) := by
  refine ⟨fun h => by simp [computeAllowedByTags, h], ?_, ?_⟩
  · intro h
    have hlen : reqTags.length ≠ 0 := fun hc => h (List.length_eq_zero.mp hc)
    simp only [computeAllowedByTags, if_neg hlen]
    rw [foldl_tags_any]
    simp only [Bool.false_or, List.any_eq_true, Bool.and_eq_true, beq_iff_eq,
      GoValue.eqTrue_iff]
    constructor
    · rintro ⟨t, ht, kv, hkv, h1, h2⟩
      refine ⟨t, ht, ?_⟩
      have : kv = (t, GoValue.bool true) := Prod.ext h1 h2
      exact this ▸ hkv
    · rintro ⟨t, ht, hmem⟩
      exact ⟨t, ht, (t, GoValue.bool true), hmem, rfl, rfl⟩
  · intro h
    have hlen : reqTags.length ≠ 0 := fun hc => h (List.length_eq_zero.mp hc)
    simp only [computeAllowedByTags, if_neg hlen]
    rw [foldl_tags_any]
    simp

/-- Witness for C7 at a concrete unit and tags map. -/
theorem c7_allowed_by_tags_witness :
    ((["front"] : List String) = [] →
      computeAllowedByTags ["front"] [("front", .bool true)] = true) ∧
    ((["front"] : List String) ≠ [] →
      (computeAllowedByTags ["front"] [("front", .bool true)] = true ↔
        ∃ t ∈ (["front"] : List String),
          (t, GoValue.bool true) ∈ [("front", GoValue.bool true)])) ∧
    ((["front"] : List String) ≠ [] → computeAllowedByTags ["front"] [] = false) :=
  c7_allowed_by_tags ["front"] [("front", .bool true)]

/-! ## C6: weight resolution -/

/-- C6.  The claim says a missing `<usedName>.weight` defaults to `0` and a
non-integer weight is a validation error; the code instead fails on a
missing weight (first conjunct — contradicting its own comment `If no
weight is specified, setting it to 0`) and silently truncates a
non-integral `float64` weight such as `1.5` to `1` (second conjunct).  The
remaining conjuncts record the behaviours that do match the claim: a
negative weight and a non-`Int64` `json.Number` weight are errors naming
the unit. -/
theorem c6_weight_resolution :
    getWeight "frontend" none
        = .error "Error computing weight value for sub-chart \"frontend\"" ∧
    getWeight "frontend" (some (.float64 1 false)) = .ok 1 ∧
    getWeight "frontend" (some (.float64 (-2) true))
        = .error
          "Error computing weight value for sub-chart \"frontend\": value shall be positive or equal to zero" ∧
    getWeight "frontend" (some (.jsonNumber none))
        = .error
          "Error computing weight value for sub-chart \"frontend\": value shall be an integer" :=
  ⟨rfl, rfl, rfl, rfl⟩

/-! ## C2: the readiness probe -/

theorem notReadyOutput_isEmpty_iff (names : List String) (items : List ReplicaWorkload) :
    (notReadyOutput names items).isEmpty = true ↔
      ∀ w ∈ items, names.contains w.name = true → workloadBehind w = false := by
  rw [List.isEmpty_iff]
  simp only [notReadyOutput, List.map_eq_nil_iff, List.filter_eq_nil_iff]
  constructor
  · intro h w hw hc
    by_contra hb
    exact h w (List.mem_filter.mpr ⟨hw, hc⟩) (by simpa using hb)
  · intro h w hw
    rcases List.mem_filter.mp hw with ⟨hmem, hc⟩
    simp [h w hmem hc]

/-- C2, counterexample to the claim as stated.  First conjunct: the named
deployment `web` does not exist in the cluster, yet the probe reports
ready — the claim requires a not-found workload to be treated as
not-ready, i.e. the probe to return `false`.  Second conjunct: `web`
exists with desired count 1 but ready/current/updated counts 2, so the
claim's rule (desired *equals* ready, current and updated) is violated,
yet the probe reports ready.  The remaining conjuncts pin the counts of
that input. -/
theorem c2_probe_counterexample :
    areWorkloadsReady ["web"] [] none = (true, none) ∧
    areWorkloadsReady ["web"] [⟨"web", 1, some 2, some 2, some 2⟩] none = (true, none) ∧
    tmplReady ⟨"web", 1, some 2, some 2, some 2⟩ = 2 ∧
    (⟨"web", 1, some 2, some 2, some 2⟩ : ReplicaWorkload).specReplicas = 1 :=
  ⟨rfl, rfl, rfl, rfl⟩

/-- C2, amended.  The replica-workload probe returns true iff every named
workload that exists in the cluster has ready, current and updated counts
at least the desired replica count — a named workload that is not found
contributes nothing and is thus treated as ready, not as not-ready.  The
job probe returns true iff every named job is found with a succeeded count
of at least 1; a job that is not found makes `kubectl` fail, so the probe
returns not-ready together with an error (the callers discard the error
and keep the not-ready boolean). -/
theorem c2_probe_amended (names : List String) (items : List ReplicaWorkload)
    (jobs : List JobWorkload) :
    (areWorkloadsReady names items none = (true, none) ↔
      ∀ w ∈ items, names.contains w.name = true →
        (w.specReplicas ≤ tmplReady w ∧ w.specReplicas ≤ tmplCurrent w
          ∧ w.specReplicas ≤ tmplUpdated w)) ∧
    (AreJobsReady names jobs = (true, none) ↔
      ∀ n ∈ names, ∃ j, lookupJob jobs n = some j ∧ 1 ≤ j.succeeded.getD 0) ∧
    (∀ n, lookupJob jobs n = none →
      AreJobsReady [n] jobs = (false, some ("error getting job " ++ n))) := by
  refine ⟨?_, ?_, ?_⟩
  · by_cases hn : names.length = 0
    · have : names = [] := List.length_eq_zero.mp hn
      subst this
      simp [areWorkloadsReady]
    · simp only [areWorkloadsReady, if_neg hn, Prod.mk.injEq, and_true]
      rw [notReadyOutput_isEmpty_iff]
      constructor
      · intro h w hw hc
        have hb := h w hw hc
        simp only [workloadBehind, Bool.or_eq_false_iff, decide_eq_false_iff_not,
          not_lt] at hb
        exact ⟨hb.1.1, hb.1.2, hb.2⟩
      · intro h w hw hc
        have hb := h w hw hc
        simp only [workloadBehind, Bool.or_eq_false_iff, decide_eq_false_iff_not,
          not_lt]
        exact ⟨⟨hb.1, hb.2.1⟩, hb.2.2⟩
  · induction names with
    | nil => simp [AreJobsReady]
    | cons n rest ih =>
      cases hl : lookupJob jobs n with
      | none =>
        simp only [AreJobsReady, hl]
        constructor
        · intro h
          exact absurd h (by simp)
        · intro h
          rcases h n (List.mem_cons_self n rest) with ⟨j, hj, _⟩
          rw [hl] at hj
          exact absurd hj (by simp)
      | some j =>
        simp only [AreJobsReady, hl]
        by_cases hs : j.succeeded.getD 0 < 1
        · rw [if_pos hs]
          constructor
          · intro h
            exact absurd h (by simp)
          · intro h
            rcases h n (List.mem_cons_self n rest) with ⟨j', hj', hge⟩
            rw [hl] at hj'
            have hjj : j' = j := by injection hj'.symm
            rw [hjj] at hge
            omega
        · rw [if_neg hs, ih]
          constructor
          · intro h m hm
            rcases List.mem_cons.mp hm with h1 | h1
            · exact ⟨j, h1 ▸ hl, by omega⟩
            · exact h m h1
          · intro h m hm
            exact h m (List.mem_cons_of_mem n hm)
  · intro n hl
    simp [AreJobsReady, hl]

/-- Witness for C2's amended statement: the job probe applied to a job
name absent from the cluster, hypothesis discharged at `[]`. -/
theorem c2_probe_amended_witness :
    AreJobsReady ["missing"] [] = (false, some "error getting job missing") :=
  (c2_probe_amended ["missing"] [] []).2.2 "missing" rfl

/-! ## C3 and C10: the wait loop -/

/-- If the deployment poll never reports ready, the loop never breaks, its
iteration count does not depend on anything else the polls return, and the
deployment flag stays false. -/
theorem waitLoop_neverD (hasS hasJ : Bool) (polls polls' : WaitPolls)
    (timeout : Int)
    (h : ∀ n, (polls.deploysReady n).1 = false)
    (h' : ∀ n, (polls'.deploysReady n).1 = false) :
    ∀ fuel i n st st', st.doneDeployments = false → st'.doneDeployments = false →
      (waitLoop true hasS hasJ polls timeout fuel i n st).1
          = (waitLoop true hasS hasJ polls' timeout fuel i n st').1 ∧
      (waitLoop true hasS hasJ polls timeout fuel i n st).2.doneDeployments = false ∧
      (waitLoop true hasS hasJ polls' timeout fuel i n st').2.doneDeployments = false := by
  intro fuel
  induction fuel with
  | zero => intro i n st st' hst hst'; exact ⟨rfl, hst, hst'⟩
  | succ fuel ih =>
    intro i n st st' hst hst'
    by_cases hi : i < timeout
    · have hd : (waitStep true hasS hasJ polls n st).doneDeployments = false := by
        simp [waitStep, hst, h n]
      have hd' : (waitStep true hasS hasJ polls' n st').doneDeployments = false := by
        simp [waitStep, hst', h' n]
      rw [waitLoop, waitLoop, if_pos hi, if_pos hi, if_neg (by simp [hd]),
        if_neg (by simp [hd'])]
      exact ih (i + 5) (n + 1) _ _ hd hd'
    · rw [waitLoop, waitLoop, if_neg hi, if_neg hi]
      exact ⟨rfl, hst, hst'⟩

/-- `wait` with a never-ready deployment poll gives the same result
whatever any of the polls otherwise return. -/
theorem waitRun_neverD (hasS hasJ : Bool) (polls polls' : WaitPolls) (timeout : Int)
    (h : ∀ n, (polls.deploysReady n).1 = false)
    (h' : ∀ n, (polls'.deploysReady n).1 = false) :
    waitRun true hasS hasJ polls timeout = waitRun true hasS hasJ polls' timeout := by
  obtain ⟨h1, h2, h3⟩ := waitLoop_neverD hasS hasJ polls polls' timeout h h'
    (timeout.toNat + 1) 0 0 ⟨false, false, false⟩ ⟨false, false, false⟩ rfl rfl
  simp only [waitRun, h1, h2, h3]
  simp

/-- State congruence of the wait loop: only the boolean component of each
poll result is ever consulted; the error components are discarded. -/
theorem waitLoop_congr (hasD hasS hasJ : Bool) (polls polls' : WaitPolls)
    (timeout : Int)
    (hD : ∀ n, (polls.deploysReady n).1 = (polls'.deploysReady n).1)
    (hS : ∀ n, (polls.statefulSetsReady n).1 = (polls'.statefulSetsReady n).1)
    (hJ : ∀ n, (polls.jobsReady n).1 = (polls'.jobsReady n).1) :
    ∀ fuel i n st, waitLoop hasD hasS hasJ polls timeout fuel i n st
        = waitLoop hasD hasS hasJ polls' timeout fuel i n st := by
  intro fuel
  induction fuel with
  | zero => intro i n st; rfl
  | succ fuel ih =>
    intro i n st
    have hstep : waitStep hasD hasS hasJ polls n st = waitStep hasD hasS hasJ polls' n st := by
      simp only [waitStep, hD n, hS n, hJ n]
    rw [waitLoop, waitLoop, hstep]
    simp only [ih]

/-- C3.  With a readiness that never resolves, a poll interval of 5 and an
overall timeout of 10, the wait loop makes exactly 2 poll attempts and
then fails with the timeout error; and in general, with the interval and
timeout fixed, the number of poll attempts and the outcome are fully
deterministic — any two runs whose readiness never resolves behave
identically. -/
theorem c3_wait_poll_count (polls : WaitPolls) (hasS hasJ : Bool)
    (hnever : ∀ n, (polls.deploysReady n).1 = false) :
    waitRun true hasS hasJ polls 10
        = (2, some "timed out waiting for liveness and readiness") ∧
    ∀ timeout (polls' : WaitPolls), (∀ n, (polls'.deploysReady n).1 = false) →
      waitRun true hasS hasJ polls timeout = waitRun true hasS hasJ polls' timeout := by
  constructor
  · rw [waitRun_neverD hasS hasJ polls neverPolls 10 hnever (fun _ => rfl)]
    cases hasS <;> cases hasJ <;> rfl
  · intro timeout polls' h'
    exact waitRun_neverD hasS hasJ polls polls' timeout hnever h'

/-- Witness for C3 at the concrete never-ready polls. -/
theorem c3_wait_poll_count_witness :
    waitRun true false false neverPolls 10
      = (2, some "timed out waiting for liveness and readiness") :=
  (c3_wait_poll_count neverPolls false false (fun _ => rfl)).1

/-- C10.  An error returned by a cluster status query never influences the
wait loop: the run's result is unchanged when every poll's error component
is replaced (first conjunct — the loop reads only the boolean), the only
error `wait` can itself return is the timeout error (second conjunct), and
a query error at probe level comes paired with a not-ready boolean, which
is what the loop keeps (third conjunct). -/
theorem c10_query_error_discarded (hasD hasS hasJ : Bool) (polls polls' : WaitPolls)
    (timeout : Int)
    (hD : ∀ n, (polls.deploysReady n).1 = (polls'.deploysReady n).1)
    (hS : ∀ n, (polls.statefulSetsReady n).1 = (polls'.statefulSetsReady n).1)
    (hJ : ∀ n, (polls.jobsReady n).1 = (polls'.jobsReady n).1) :
    waitRun hasD hasS hasJ polls timeout = waitRun hasD hasS hasJ polls' timeout ∧
    ((waitRun hasD hasS hasJ polls timeout).2 = none ∨
      (waitRun hasD hasS hasJ polls timeout).2
        = some "timed out waiting for liveness and readiness") ∧
    (∀ (names : List String) (items : List ReplicaWorkload) (e : String),
      names ≠ [] → areWorkloadsReady names items (some e) = (false, some e)) := by
  refine ⟨?_, ?_, ?_⟩
  · simp only [waitRun, waitLoop_congr hasD hasS hasJ polls polls' timeout hD hS hJ]
  · simp only [waitRun]
    by_cases h : (!(waitLoop hasD hasS hasJ polls timeout (timeout.toNat + 1) 0 0
        ⟨false, false, false⟩).2.doneDeployments
        || !(waitLoop hasD hasS hasJ polls timeout (timeout.toNat + 1) 0 0
          ⟨false, false, false⟩).2.doneStatefulSets
        || !(waitLoop hasD hasS hasJ polls timeout (timeout.toNat + 1) 0 0
          ⟨false, false, false⟩).2.doneJobs) = true
    · rw [if_pos h]; exact Or.inr rfl
    · rw [if_neg h]; exact Or.inl rfl
  · intro names items e hn
    have : names.length ≠ 0 := fun hc => hn (List.length_eq_zero.mp hc)
    simp [areWorkloadsReady, this]

/-- Witness for C10: a run against polls that permanently fail with a
query error equals the run against polls that fail with no error, and
carries only the timeout error. -/
theorem c10_query_error_discarded_witness :
    waitRun true true true errPolls 10 = waitRun true true true neverPolls 10 ∧
    ((waitRun true true true errPolls 10).2 = none ∨
      (waitRun true true true errPolls 10).2
        = some "timed out waiting for liveness and readiness") ∧
    (∀ (names : List String) (items : List ReplicaWorkload) (e : String),
      names ≠ [] → areWorkloadsReady names items (some e) = (false, some e)) :=
  c10_query_error_discarded true true true errPolls neverPolls 10
    (fun _ => rfl) (fun _ => rfl) (fun _ => rfl)

/-! ## C9: the enable/disable override set and its position -/

theorem foldl_append_flatMap {α β : Type} (g : α → List β) (l : List α) (acc : List β) :
    l.foldl (fun a v => a ++ g v) acc = acc ++ l.flatMap g := by
  induction l generalizing acc with
  | nil => simp
  | cons x l ih => simp [List.foldl_cons, ih]

theorem string_join_cons (s : String) (l : List String) :
    String.join (s :: l) = s ++ String.join l := by
  simp [String.join_eq]
  rfl

theorem depValuesSet_fold (unit : Dependency) (deps : List Dependency) (acc : String) :
    deps.foldl
        (fun acc dep =>
          if dep.usedName == unit.usedName then acc ++ dep.usedName ++ ".enabled=true,"
          else acc ++ dep.usedName ++ ".enabled=false,")
        acc
      = acc ++ String.join (deps.map (enabledFragment unit)) := by
  induction deps generalizing acc with
  | nil => simp [String.join]
  | cons d l ih =>
    rw [List.foldl_cons, List.map_cons, string_join_cons]
    by_cases h : (d.usedName == unit.usedName) = true
    · rw [if_pos h, ih, enabledFragment, if_pos h]
      simp [String.append_assoc]
    · rw [if_neg h, ih, enabledFragment, if_neg h]
      simp [String.append_assoc]

/-- C9.  For every unit upgraded, the single override string sets
`<usedName>.enabled=true` for exactly that unit and
`<siblingUsedName>.enabled=false` for every other dependency of the
umbrella chart (first conjunct); it is appended after — not prepended
before — the user's `--set` overrides (second conjunct); and the final
argument vector for the release tool carries the `--set` flags in exactly
that order: the user's values first, the enable/disable string last (third
conjunct). -/
theorem c9_override_set (deps : List Dependency) (unit : Dependency)
    (userValues : List String) (ns rel chart : String) (rv ru : Bool)
    (vf vss vsf : List String) (force : Bool) (timeout : Int) (dryRun debug : Bool) :
    depValuesSetString deps unit = String.join (deps.map (enabledFragment unit)) ∧
    upgradeValuesSet userValues deps unit
      = userValues ++ [depValuesSetString deps unit] ∧
    upgradeArgs ns rel chart rv ru vf (upgradeValuesSet userValues deps unit) vss vsf
        force timeout dryRun debug
      = ["upgrade", "--install", rel, chart, "--namespace", ns, "--timeout",
          toString timeout ++ "s"]
        ++ ((userValues ++ [depValuesSetString deps unit]).flatMap fun v => ["--set", v])
        ++ (vss.flatMap fun v => ["--set-string", v])
        ++ (vsf.flatMap fun v => ["--set-file", v])
        ++ (vf.flatMap fun v => ["-f", v])
        ++ (if rv then ["--reset-values"] else [])
        ++ (if ru then ["--reuse-values"] else [])
        ++ (if force then ["--force"] else [])
        ++ (if dryRun then ["--dry-run"] else [])
        ++ (if debug then ["--debug"] else []) := by
  refine ⟨?_, rfl, ?_⟩
  · rw [depValuesSetString, depValuesSet_fold]
    simp
  · simp only [upgradeArgs, upgradeValuesSet, foldl_append_flatMap]
    cases rv <;> cases ru <;> cases force <;> cases dryRun <;> cases debug <;>
      simp [List.append_assoc]

/-! ## Scheduler lemmas -/

theorem le_foldMax (l : List Dependency) :
    ∀ m : Int, m ≤ l.foldl (fun m x => if x.weight > m then x.weight else m) m := by
  induction l with
  | nil => intro m; simp
  | cons x l ih =>
    intro m
    rw [List.foldl_cons]
    by_cases h : x.weight > m
    · rw [if_pos h]; exact le_trans (le_of_lt h) (ih x.weight)
    · rw [if_neg h]; exact ih m

theorem mem_le_foldMax (l : List Dependency) :
    ∀ m : Int, ∀ d ∈ l,
      d.weight ≤ l.foldl (fun m x => if x.weight > m then x.weight else m) m := by
  induction l with
  | nil => intro m d hd; cases hd
  | cons x l ih =>
    intro m d hd
    rw [List.foldl_cons]
    rcases List.mem_cons.mp hd with h | h
    · subst h
      by_cases hx : d.weight > m
      · rw [if_pos hx]; exact le_foldMax l d.weight
      · rw [if_neg hx]; exact le_trans (not_lt.mp hx) (le_foldMax l m)
    · exact ih _ d h

theorem weight_le_maxWeight (deps : List Dependency) (d : Dependency) (hd : d ∈ deps) :
    d.weight ≤ maxWeight deps := by
  cases deps with
  | nil => cases hd
  | cons x l =>
    rw [maxWeight]
    rcases List.mem_cons.mp hd with h | h
    · subst h; exact le_foldMax l d.weight
    · exact mem_le_foldMax l x.weight d h

theorem mem_weightRange (deps : List Dependency) (w : Int) (h0 : 0 ≤ w)
    (hle : w ≤ maxWeight deps) : w ∈ weightRange deps := by
  rw [weightRange, List.mem_map]
  refine ⟨w.toNat, ?_, Int.toNat_of_nonneg h0⟩
  rw [List.mem_range]
  omega

theorem weightRange_split (deps : List Dependency) (k : Int) (h0 : 0 ≤ k)
    (hle : k ≤ maxWeight deps) :
    ∃ ws₂, weightRange deps = ((List.range k.toNat).map (fun n : Nat => (n : Int))) ++ k :: ws₂ ∧
      ∀ w ∈ (List.range k.toNat).map (fun n : Nat => (n : Int)), w < k := by
  have hN : (maxWeight deps + 1).toNat
      = k.toNat + 1 + ((maxWeight deps + 1).toNat - (k.toNat + 1)) := by omega
  rw [weightRange, hN, List.range_add, List.range_succ]
  refine ⟨(List.map (fun x => k.toNat + 1 + x)
      (List.range ((maxWeight deps + 1).toNat - (k.toNat + 1)))).map (fun n : Nat => (n : Int)), ?_, ?_⟩
  · have hk : ((k.toNat : Int)) = k := by omega
    simp [List.map_append, hk, List.append_assoc]
  · intro w hw
    rcases List.mem_map.mp hw with ⟨j, hj, rfl⟩
    rw [List.mem_range] at hj
    omega

theorem upgradeWave_mem (env : String → ReleaseOutcome) (dry : Bool) (w : Int) :
    ∀ deps, ∀ e ∈ (upgradeWave env dry w deps).1,
      e.weightOf = w ∧ ∃ d ∈ deps, eligible d = true ∧ d.weight = w := by
  intro deps
  induction deps with
  | nil => intro e he; simp [upgradeWave] at he
  | cons d rest ih =>
    intro e he
    rw [upgradeWave] at he
    by_cases hd : (eligible d && d.weight == w) = true
    · rw [if_pos hd] at he
      obtain ⟨hd1, hd2⟩ : eligible d = true ∧ d.weight = w := by simpa using hd
      by_cases ht : (env d.correspondingReleaseName).transportError = true
      · rw [if_pos ht] at he
        rcases List.mem_singleton.mp he with rfl
        exact ⟨rfl, d, List.mem_cons_self d rest, hd1, hd2⟩
      · rw [if_neg ht] at he
        by_cases hs : (!dry && (env d.correspondingReleaseName).status != "deployed") = true
        · rw [if_pos hs] at he
          rcases List.mem_singleton.mp he with rfl
          exact ⟨rfl, d, List.mem_cons_self d rest, hd1, hd2⟩
        · rw [if_neg hs] at he
          rcases List.mem_cons.mp he with rfl | hmem
          · exact ⟨rfl, d, List.mem_cons_self d rest, hd1, hd2⟩
          · obtain ⟨h1, d', hd', h2, h3⟩ := ih e hmem
            exact ⟨h1, d', List.mem_cons_of_mem d hd', h2, h3⟩
    · rw [if_neg hd] at he
      obtain ⟨h1, d', hd', h2, h3⟩ := ih e he
      exact ⟨h1, d', List.mem_cons_of_mem d hd', h2, h3⟩

theorem upgradeWave_shouldWait (env : String → ReleaseOutcome) (dry : Bool) (w : Int) :
    ∀ deps, (upgradeWave env dry w deps).2.1 = true →
      ∃ d ∈ deps, eligible d = true ∧ d.weight = w := by
  intro deps
  induction deps with
  | nil => intro h; simp [upgradeWave] at h
  | cons d rest ih =>
    intro h
    rw [upgradeWave] at h
    by_cases hd : (eligible d && d.weight == w) = true
    · obtain ⟨hd1, hd2⟩ : eligible d = true ∧ d.weight = w := by simpa using hd
      exact ⟨d, List.mem_cons_self d rest, hd1, hd2⟩
    · rw [if_neg hd] at h
      obtain ⟨d', hd', h2, h3⟩ := ih h
      exact ⟨d', List.mem_cons_of_mem d hd', h2, h3⟩

theorem upgradeWave_no_barrier (env : String → ReleaseOutcome) (dry : Bool) (w : Int) :
    ∀ deps v, SprayEvent.barrier v ∉ (upgradeWave env dry w deps).1 := by
  intro deps
  induction deps with
  | nil => intro v h; simp [upgradeWave] at h
  | cons d rest ih =>
    intro v h
    rw [upgradeWave] at h
    by_cases hd : (eligible d && d.weight == w) = true
    · rw [if_pos hd] at h
      by_cases ht : (env d.correspondingReleaseName).transportError = true
      · rw [if_pos ht] at h
        exact absurd (List.mem_singleton.mp h) (by simp)
      · rw [if_neg ht] at h
        by_cases hs : (!dry && (env d.correspondingReleaseName).status != "deployed") = true
        · rw [if_pos hs] at h
          exact absurd (List.mem_singleton.mp h) (by simp)
        · rw [if_neg hs] at h
          rcases List.mem_cons.mp h with hc | hmem
          · exact absurd hc (by simp)
          · exact ih v hmem
    · rw [if_neg hd] at h
      exact ih v h

theorem upgradeWave_ok (env : String → ReleaseOutcome) (dry : Bool) (w : Int) :
    ∀ deps,
      (∀ d ∈ deps, eligible d = true → d.weight = w → releaseOk env dry d = true) →
      (upgradeWave env dry w deps).2.2 = none := by
  intro deps
  induction deps with
  | nil => intro _; rfl
  | cons d rest ih =>
    intro h
    rw [upgradeWave]
    by_cases hd : (eligible d && d.weight == w) = true
    · obtain ⟨hd1, hd2⟩ : eligible d = true ∧ d.weight = w := by simpa using hd
      have hok := h d (List.mem_cons_self d rest) hd1 hd2
      rw [releaseOk, Bool.and_eq_true, Bool.not_eq_true'] at hok
      rw [if_pos hd, if_neg (by simp [hok.1])]
      have hstat : (!dry && (env d.correspondingReleaseName).status != "deployed") = false := by
        cases hdry : dry
        · rcases (Bool.or_eq_true _ _).mp (hdry ▸ hok.2) with hc | hc
          · exact absurd hc (by simp)
          · simp [bne, hc]
        · simp
      rw [if_neg (by simp [hstat])]
      exact ih fun d' hd' => h d' (List.mem_cons_of_mem d hd')
    · rw [if_neg hd]
      exact ih fun d' hd' => h d' (List.mem_cons_of_mem d hd')

theorem upgradeWave_first_bad (env : String → ReleaseOutcome) (dry : Bool) (w : Int)
    (d : Dependency) (helig : eligible d = true) (hw : d.weight = w)
    (hbad : releaseOk env dry d = false) :
    ∀ deps₁ deps₂,
      (∀ d' ∈ deps₁, eligible d' = true → d'.weight = w → releaseOk env dry d' = true) →
      ∃ evs,
        (upgradeWave env dry w (deps₁ ++ d :: deps₂)).1
            = evs ++ [SprayEvent.upgradeCall d.correspondingReleaseName w dry] ∧
        (upgradeWave env dry w (deps₁ ++ d :: deps₂)).2.2.isSome = true := by
  intro deps₁
  induction deps₁ with
  | nil =>
    intro deps₂ _
    rw [List.nil_append, upgradeWave,
      if_pos (by rw [Bool.and_eq_true]; exact ⟨helig, beq_iff_eq.mpr hw⟩)]
    rw [releaseOk, Bool.and_eq_false_iff] at hbad
    by_cases ht : (env d.correspondingReleaseName).transportError = true
    · rw [if_pos ht]
      exact ⟨[], rfl, rfl⟩
    · rw [if_neg ht]
      have hor : (dry || ((env d.correspondingReleaseName).status == "deployed")) = false := by
        rcases hbad with hc | hc
        · rw [Bool.not_eq_false'] at hc; exact absurd hc ht
        · exact hc
      rw [Bool.or_eq_false_iff] at hor
      rw [if_pos (by simp [hor.1, bne, hor.2])]
      exact ⟨[], rfl, rfl⟩
  | cons p rest ih =>
    intro deps₂ hpre
    rw [List.cons_append, upgradeWave]
    by_cases hp : (eligible p && p.weight == w) = true
    · obtain ⟨hp1, hp2⟩ : eligible p = true ∧ p.weight = w := by simpa using hp
      have hok := hpre p (List.mem_cons_self p rest) hp1 hp2
      rw [releaseOk, Bool.and_eq_true, Bool.not_eq_true'] at hok
      rw [if_pos hp, if_neg (by simp [hok.1])]
      have hstat : (!dry && (env p.correspondingReleaseName).status != "deployed") = false := by
        cases hdry : dry
        · rcases (Bool.or_eq_true _ _).mp (hdry ▸ hok.2) with hc | hc
          · exact absurd hc (by simp)
          · simp [bne, hc]
        · simp
      rw [if_neg (by simp [hstat])]
      obtain ⟨evs, hev, hsome⟩ := ih deps₂ fun d' hd' => hpre d' (List.mem_cons_of_mem p hd')
      refine ⟨SprayEvent.upgradeCall p.correspondingReleaseName w dry :: evs, ?_, hsome⟩
      simp [hev]
    · rw [if_neg hp]
      exact ih deps₂ fun d' hd' => hpre d' (List.mem_cons_of_mem p hd')

theorem sprayWeights_mem (env : String → ReleaseOutcome) (waitOk : Int → Bool)
    (dry : Bool) (deps : List Dependency) :
    ∀ ws, ∀ e ∈ (sprayWeights env waitOk dry deps ws).1,
      (∃ d ∈ deps, eligible d = true ∧ d.weight = e.weightOf) ∧ e.weightOf ∈ ws := by
  intro ws
  induction ws with
  | nil => intro e he; simp [sprayWeights] at he
  | cons w ws ih =>
    intro e he
    rw [sprayWeights] at he
    cases hu : (upgradeWave env dry w deps).2.2 with
    | some err =>
      simp only [hu] at he
      obtain ⟨hw, d, hd, h1, h2⟩ := upgradeWave_mem env dry w deps e he
      exact ⟨⟨d, hd, h1, hw ▸ h2⟩, by rw [hw]; exact List.mem_cons_self w ws⟩
    | none =>
      simp only [hu] at he
      by_cases hsw : ((upgradeWave env dry w deps).2.1 && !dry) = true
      · rw [if_pos hsw] at he
        have hbar : ∀ hmem : e ∈ (upgradeWave env dry w deps).1 ++ [SprayEvent.barrier w],
            (∃ d ∈ deps, eligible d = true ∧ d.weight = e.weightOf) ∧ e.weightOf ∈ w :: ws := by
          intro hmem
          rcases List.mem_append.mp hmem with h | h
          · obtain ⟨hw, d, hd, h1, h2⟩ := upgradeWave_mem env dry w deps e h
            exact ⟨⟨d, hd, h1, hw ▸ h2⟩, by rw [hw]; exact List.mem_cons_self w ws⟩
          · rcases List.mem_singleton.mp h with rfl
            obtain ⟨d, hd, h1, h2⟩ := upgradeWave_shouldWait env dry w deps
              (Bool.and_elim_left hsw)
            exact ⟨⟨d, hd, h1, h2⟩, List.mem_cons_self w ws⟩
        by_cases hwk : waitOk w = true
        · rw [if_pos hwk] at he
          rcases List.mem_append.mp he with h | h
          · exact hbar h
          · obtain ⟨hex, hmem⟩ := ih e h
            exact ⟨hex, List.mem_cons_of_mem w hmem⟩
        · rw [if_neg hwk] at he
          exact hbar he
      · rw [if_neg hsw] at he
        rcases List.mem_append.mp he with h | h
        · obtain ⟨hw, d, hd, h1, h2⟩ := upgradeWave_mem env dry w deps e h
          exact ⟨⟨d, hd, h1, hw ▸ h2⟩, by rw [hw]; exact List.mem_cons_self w ws⟩
        · obtain ⟨hex, hmem⟩ := ih e h
          exact ⟨hex, List.mem_cons_of_mem w hmem⟩

theorem pairwise_le_of_const (l : List Int) (c : Int) (h : ∀ x ∈ l, x = c) :
    l.Pairwise (· ≤ ·) := by
  induction l with
  | nil => exact List.Pairwise.nil
  | cons x l ih =>
    refine List.Pairwise.cons ?_ (ih fun y hy => h y (List.mem_cons_of_mem x hy))
    intro y hy
    rw [h x (List.mem_cons_self x l), h y (List.mem_cons_of_mem x hy)]

theorem sprayWeights_sorted (env : String → ReleaseOutcome) (waitOk : Int → Bool)
    (dry : Bool) (deps : List Dependency) :
    ∀ ws, List.Pairwise (· ≤ ·) ws →
      ((sprayWeights env waitOk dry deps ws).1.map SprayEvent.weightOf).Pairwise
        (· ≤ ·) := by
  intro ws
  induction ws with
  | nil => intro _; simp [sprayWeights]
  | cons w ws ih =>
    intro hp
    obtain ⟨hw, hp'⟩ := List.pairwise_cons.mp hp
    have hwave : ∀ x ∈ ((upgradeWave env dry w deps).1.map SprayEvent.weightOf), x = w := by
      intro x hx
      rcases List.mem_map.mp hx with ⟨e, he, rfl⟩
      exact (upgradeWave_mem env dry w deps e he).1
    have hbarwave : ∀ x ∈ (((upgradeWave env dry w deps).1
        ++ [SprayEvent.barrier w]).map SprayEvent.weightOf), x = w := by
      intro x hx
      rw [List.map_append] at hx
      rcases List.mem_append.mp hx with h | h
      · exact hwave x h
      · rcases List.mem_map.mp h with ⟨e, he, rfl⟩
        rcases List.mem_singleton.mp he with rfl
        rfl
    rw [sprayWeights]
    cases hu : (upgradeWave env dry w deps).2.2 with
    | some err =>
      simp only [hu]
      exact pairwise_le_of_const _ w hwave
    | none =>
      simp only [hu]
      by_cases hsw : ((upgradeWave env dry w deps).2.1 && !dry) = true
      · rw [if_pos hsw]
        by_cases hwk : waitOk w = true
        · rw [if_pos hwk]
          rw [List.map_append, List.pairwise_append]
          refine ⟨pairwise_le_of_const _ w hbarwave, ih hp', ?_⟩
          intro a ha b hb
          rcases List.mem_map.mp hb with ⟨e, he, rfl⟩
          have hmem := (sprayWeights_mem env waitOk dry deps ws e he).2
          rw [hbarwave a ha]
          exact hw _ hmem
        · rw [if_neg hwk]
          exact pairwise_le_of_const _ w hbarwave
      · rw [if_neg hsw]
        rw [List.map_append, List.pairwise_append]
        refine ⟨pairwise_le_of_const _ w hwave, ih hp', ?_⟩
        intro a ha b hb
        rcases List.mem_map.mp hb with ⟨e, he, rfl⟩
        have hmem := (sprayWeights_mem env waitOk dry deps ws e he).2
        rw [hwave a ha]
        exact hw _ hmem

theorem sprayWeights_good_prefix (env : String → ReleaseOutcome) (waitOk : Int → Bool)
    (dry : Bool) (deps : List Dependency) (hwait : ∀ w, waitOk w = true) :
    ∀ ws₁ ws₂, (∀ w ∈ ws₁, (upgradeWave env dry w deps).2.2 = none) →
      ∃ evs, sprayWeights env waitOk dry deps (ws₁ ++ ws₂)
          = (evs ++ (sprayWeights env waitOk dry deps ws₂).1,
            (sprayWeights env waitOk dry deps ws₂).2) := by
  intro ws₁
  induction ws₁ with
  | nil => intro ws₂ _; exact ⟨[], by simp⟩
  | cons w ws₁ ih =>
    intro ws₂ hok
    have hw : (upgradeWave env dry w deps).2.2 = none :=
      hok w (List.mem_cons_self w ws₁)
    rw [List.cons_append, sprayWeights]
    simp only [hw]
    obtain ⟨evs, heq⟩ := ih ws₂ fun w' h' => hok w' (List.mem_cons_of_mem w h')
    by_cases hsw : ((upgradeWave env dry w deps).2.1 && !dry) = true
    · rw [if_pos hsw, if_pos (hwait w), heq]
      exact ⟨(upgradeWave env dry w deps).1 ++ [SprayEvent.barrier w] ++ evs, by simp⟩
    · rw [if_neg hsw, heq]
      exact ⟨(upgradeWave env dry w deps).1 ++ evs, by simp⟩

theorem sprayWeights_err (env : String → ReleaseOutcome) (waitOk : Int → Bool)
    (dry : Bool) (deps : List Dependency) (w : Int) (ws₂ : List Int) (e : String)
    (h : (upgradeWave env dry w deps).2.2 = some e) :
    sprayWeights env waitOk dry deps (w :: ws₂)
      = ((upgradeWave env dry w deps).1, some e) := by
  rw [sprayWeights]
  simp only [h]

/-! ## C1: wave ordering -/

/-- C1.  General part: in every spray run, the weights of the emitted
events (release calls and barrier entries) are monotonically ascending
along the trace, and every event belongs to the weight of some eligible
unit — so a weight with zero eligible units produces no release call and
no barrier entry (no side effects).  Concrete part: for units of weights
`{0, 2, 5}` the run performs work exactly at weights 0, 2, 5 in this
order, and nothing at the gap weights 1, 3, 4. -/
theorem c1_wave_order :
    (∀ (env : String → ReleaseOutcome) (waitOk : Int → Bool) (dryRun : Bool)
        (deps : List Dependency),
      ((sprayRun env waitOk dryRun deps).1.map SprayEvent.weightOf).Pairwise (· ≤ ·) ∧
      ∀ e ∈ (sprayRun env waitOk dryRun deps).1,
        ∃ d ∈ deps, eligible d = true ∧ d.weight = e.weightOf) ∧
    (sprayRun deployedEnv (fun _ => true) false gapDeps).1.map SprayEvent.weightOf
      = [0, 0, 2, 2, 5, 5] ∧
    ((sprayRun deployedEnv (fun _ => true) false gapDeps).1.map
        SprayEvent.weightOf).dedup
      = [0, 2, 5] := by
  refine ⟨fun env waitOk dryRun deps => ⟨?_, ?_⟩, by decide, by decide⟩
  · apply sprayWeights_sorted
    rw [weightRange]
    exact (List.pairwise_lt_range _).map _
      (fun a b h => by exact_mod_cast le_of_lt h)
  · intro e he
    exact (sprayWeights_mem env waitOk dryRun deps (weightRange deps) e he).1

/-- Witness for C1: the general part applied to the concrete `{0, 2, 5}`
run, at the release call for the weight-2 unit. -/
theorem c1_wave_order_witness :
    ∃ d ∈ gapDeps, eligible d = true
      ∧ d.weight = (SprayEvent.upgradeCall "b" 2 false).weightOf :=
  (c1_wave_order.1 deployedEnv (fun _ => true) false gapDeps).2
    (SprayEvent.upgradeCall "b" 2 false) (by decide)

/-! ## C4: a failed release aborts the run -/

/-- C4.  On a non-dry run, if the release operation for unit `d` fails —
at transport level or with a terminal status other than `deployed` — while
every eligible unit processed before it succeeded, then the run's trace
ends at `d`'s release call (no further unit of the wave and no later wave
is attempted), the run finishes with an error, and the process exit code
is 1. -/
theorem c4_release_failure_aborts (env : String → ReleaseOutcome) (waitOk : Int → Bool)
    (deps₁ : List Dependency) (d : Dependency) (deps₂ : List Dependency)
    (helig : eligible d = true) (h0 : 0 ≤ d.weight)
    (hbad : releaseOk env false d = false)
    (hpre : ∀ d' ∈ deps₁, eligible d' = true → d'.weight = d.weight →
      releaseOk env false d' = true)
    (hlow : ∀ d' ∈ deps₁ ++ d :: deps₂, eligible d' = true → d'.weight < d.weight →
      releaseOk env false d' = true)
    (hwait : ∀ w, waitOk w = true) :
    (∃ evs, (sprayRun env waitOk false (deps₁ ++ d :: deps₂)).1
        = evs ++ [SprayEvent.upgradeCall d.correspondingReleaseName d.weight false]) ∧
    (sprayRun env waitOk false (deps₁ ++ d :: deps₂)).2.isSome = true ∧
    sprayExitCode env waitOk false (deps₁ ++ d :: deps₂) = 1 := by
  set deps := deps₁ ++ d :: deps₂ with hdeps
  have hdmem : d ∈ deps := by
    rw [hdeps]; exact List.mem_append_right _ (List.mem_cons_self d deps₂)
  have hle : d.weight ≤ maxWeight deps := weight_le_maxWeight deps d hdmem
  obtain ⟨ws₂, hsplit, hlt⟩ := weightRange_split deps d.weight h0 hle
  obtain ⟨evs₀, hev, hsome⟩ := upgradeWave_first_bad env false d.weight d helig rfl hbad
    deps₁ deps₂ hpre
  obtain ⟨err, herr⟩ := Option.isSome_iff_exists.mp hsome
  have hgoodpre : ∀ w ∈ (List.range d.weight.toNat).map (fun n : Nat => (n : Int)),
      (upgradeWave env false w deps).2.2 = none := by
    intro w hwmem
    exact upgradeWave_ok env false w deps fun d' hd' he hwd =>
      hlow d' hd' he (hwd ▸ hlt w hwmem)
  obtain ⟨evsP, heqP⟩ := sprayWeights_good_prefix env waitOk false deps hwait
    ((List.range d.weight.toNat).map (fun n : Nat => (n : Int))) (d.weight :: ws₂)
    hgoodpre
  have herrW := sprayWeights_err env waitOk false deps d.weight ws₂ err herr
  have hrun : sprayRun env waitOk false deps
      = (evsP ++ (upgradeWave env false d.weight deps).1, some err) := by
    rw [sprayRun, hsplit, heqP, herrW]
  refine ⟨⟨evsP ++ evs₀, ?_⟩, ?_, ?_⟩
  · rw [hrun, hev, List.append_assoc]
  · rw [hrun]; rfl
  · rw [sprayExitCode, hrun]; rfl

/-- Witness for C4 at the concrete weight set `{0, 2, 5}` with the unit of
weight 2 failing. -/
theorem c4_release_failure_aborts_witness :
    (∃ evs, (sprayRun failBEnv (fun _ => true) false
        ([plainUnit "a" 0] ++ plainUnit "b" 2 :: [plainUnit "c" 5])).1
      = evs ++ [SprayEvent.upgradeCall "b" 2 false]) ∧
    (sprayRun failBEnv (fun _ => true) false
        ([plainUnit "a" 0] ++ plainUnit "b" 2 :: [plainUnit "c" 5])).2.isSome = true ∧
    sprayExitCode failBEnv (fun _ => true) false
        ([plainUnit "a" 0] ++ plainUnit "b" 2 :: [plainUnit "c" 5]) = 1 :=
  c4_release_failure_aborts failBEnv (fun _ => true)
    [plainUnit "a" 0] (plainUnit "b" 2) [plainUnit "c" 5]
    (by decide) (by decide) (by decide) (by decide) (by decide) (fun _ => rfl)

/-! ## C8: dry run -/

theorem upgradeWave_dry (env : String → ReleaseOutcome)
    (henv : ∀ n, (env n).transportError = false) (w : Int) :
    ∀ deps, (upgradeWave env true w deps).2.2 = none ∧
      ∀ d ∈ deps, eligible d = true → d.weight = w →
        SprayEvent.upgradeCall d.correspondingReleaseName w true
          ∈ (upgradeWave env true w deps).1 := by
  intro deps
  induction deps with
  | nil => exact ⟨rfl, by intro d hd; cases hd⟩
  | cons p rest ih =>
    rw [upgradeWave]
    by_cases hp : (eligible p && p.weight == w) = true
    · rw [if_pos hp, if_neg (by simp [henv p.correspondingReleaseName]),
        if_neg (by simp)]
      refine ⟨ih.1, ?_⟩
      intro d hd he hwd
      rcases List.mem_cons.mp hd with rfl | hmem
      · exact List.mem_cons_self _ _
      · exact List.mem_cons_of_mem _ (ih.2 d hmem he hwd)
    · rw [if_neg hp]
      refine ⟨ih.1, ?_⟩
      intro d hd he hwd
      rcases List.mem_cons.mp hd with rfl | hmem
      · exact absurd (by rw [Bool.and_eq_true]; exact ⟨he, beq_iff_eq.mpr hwd⟩) hp
      · exact ih.2 d hmem he hwd

theorem sprayWeights_dry (env : String → ReleaseOutcome) (waitOk : Int → Bool)
    (deps : List Dependency) (henv : ∀ n, (env n).transportError = false) :
    ∀ ws, (sprayWeights env waitOk true deps ws).2 = none ∧
      (∀ v, SprayEvent.barrier v ∉ (sprayWeights env waitOk true deps ws).1) ∧
      (∀ w ∈ ws, ∀ e ∈ (upgradeWave env true w deps).1,
        e ∈ (sprayWeights env waitOk true deps ws).1) := by
  intro ws
  induction ws with
  | nil =>
    refine ⟨rfl, ?_, ?_⟩
    · intro v h; simp [sprayWeights] at h
    · intro w hw; cases hw
  | cons w ws ih =>
    rw [sprayWeights]
    simp only [(upgradeWave_dry env henv w deps).1]
    rw [if_neg (by simp)]
    refine ⟨ih.1, ?_, ?_⟩
    · intro v h
      rcases List.mem_append.mp h with h | h
      · exact upgradeWave_no_barrier env true w deps v h
      · exact ih.2.1 v h
    · intro w' hw' e he
      rcases List.mem_cons.mp hw' with rfl | hmem
      · exact List.mem_append_left _ he
      · exact List.mem_append_right _ (ih.2.2 w' hmem e he)

/-- C8.  With dry-run enabled (and the release tool itself reachable), the
run completes with no error and exit code 0, the readiness barrier is
never entered for any wave, and the release operation is still invoked —
with the dry-run flag forwarded — for every eligible unit. -/
theorem c8_dry_run (env : String → ReleaseOutcome) (waitOk : Int → Bool)
    (deps : List Dependency) (henv : ∀ n, (env n).transportError = false) :
    (sprayRun env waitOk true deps).2 = none ∧
    (∀ v, SprayEvent.barrier v ∉ (sprayRun env waitOk true deps).1) ∧
    (∀ d ∈ deps, eligible d = true → 0 ≤ d.weight →
      SprayEvent.upgradeCall d.correspondingReleaseName d.weight true
        ∈ (sprayRun env waitOk true deps).1) ∧
    sprayExitCode env waitOk true deps = 0 := by
  obtain ⟨h1, h2, h3⟩ := sprayWeights_dry env waitOk deps henv (weightRange deps)
  refine ⟨h1, h2, ?_, ?_⟩
  · intro d hd he h0
    have hmem : d.weight ∈ weightRange deps :=
      mem_weightRange deps d.weight h0 (weight_le_maxWeight deps d hd)
    exact h3 d.weight hmem _ ((upgradeWave_dry env henv d.weight deps).2 d hd he rfl)
  · rw [sprayExitCode, sprayRun] at *
    rw [h1]
    rfl

/-- Witness for C8 at the concrete weight set `{0, 2, 5}`. -/
theorem c8_dry_run_witness :
    (sprayRun deployedEnv (fun _ => true) true gapDeps).2 = none ∧
    SprayEvent.upgradeCall "b" 2 true ∈ (sprayRun deployedEnv (fun _ => true) true gapDeps).1 ∧
    sprayExitCode deployedEnv (fun _ => true) true gapDeps = 0 :=
  ⟨(c8_dry_run deployedEnv (fun _ => true) gapDeps (fun _ => rfl)).1,
    (c8_dry_run deployedEnv (fun _ => true) gapDeps (fun _ => rfl)).2.2.1
      (plainUnit "b" 2) (by decide) (by decide) (by decide),
    (c8_dry_run deployedEnv (fun _ => true) gapDeps (fun _ => rfl)).2.2.2⟩

end HelmSpray
